import Mathlib

/-!
Verification of the streaming budget-monitoring core of `maya`
(`src/transformations.py`, `src/ingestion.py`).

Embedding notes.  A Pathway streaming table is modelled as the list of
rows it has received so far, in arrival order; monetary amounts
(`float` in the source) are modelled as rationals.  Each
`groupby(...).reduce(sum, count)` block is modelled as a keyed
accumulator (`accumulate` / `runAgg`) folded over the event list, so
that the running state after every prefix is explicit; the Pathway
consistency guarantee is that every derived table equals its
definition applied to the events received so far.  The textual
`alert_reason` columns (Python f-string formatting) are presentational
and carry no data not already present in the other columns; they are
not modelled.
-/

set_option autoImplicit false

namespace Maya

/-- One budget allocation event, the row type of `BudgetEventSchema`
in `src/ingestion.py` (state, sector, allocation, contractor,
timestamp). -/
structure Event where
  state : String
  sector : String
  allocation : ℚ
  contractor : String
  timestamp : ℤ
  deriving DecidableEq, Repr

/-- Threshold `SPIKE_MULTIPLIER` from `src/transformations.py`. -/
def SPIKE_MULTIPLIER : ℚ := 4

/-- Threshold `CONTRACTOR_ALERT_CRORES` from `src/transformations.py`. -/
def CONTRACTOR_ALERT_CRORES : ℚ := 5000

/-- Keyed accumulator entry update: fold one amount into the running
(total, count) pair for key `k`, creating the entry on the key's first
event.  This is the incremental content of a Pathway
`groupby(key).reduce(sum, count)` step. -/
def accumulate {K : Type} [DecidableEq K] (k : K) (a : ℚ) :
    List (K × ℚ × ℕ) → List (K × ℚ × ℕ)
  | [] => [(k, a, 1)]
  | (k', t, c) :: rest =>
      if k' = k then (k', t + a, c + 1) :: rest
      else (k', t, c) :: accumulate k a rest

/-- Running grouped (total, count) table after folding in a list of
events under grouping key `key`; rows appear in first-occurrence order
of their keys. -/
def runAgg {K : Type} [DecidableEq K] (key : Event → K) (es : List Event) :
    List (K × ℚ × ℕ) :=
  es.foldl (fun st e => accumulate (key e) e.allocation st) []

/-- Lookup of a key's entry in an accumulator table. -/
def findA {K : Type} [DecidableEq K] (k : K) :
    List (K × ℚ × ℕ) → Option (ℚ × ℕ)
  | [] => none
  | (k', t, c) :: rest => if k' = k then some (t, c) else findA k rest

/-- Events of `es` whose grouping key is `k`. -/
def groupEvents {K : Type} [DecidableEq K] (key : Event → K) (k : K)
    (es : List Event) : List Event :=
  es.filter (fun e => decide (key e = k))

/-- Grouping key of `_state_sector_aggregations`: the (state, sector)
pair. -/
def stateSectorKey (e : Event) : String × String := (e.state, e.sector)

/-- Row type of the `state_sector_agg` output table. -/
structure AggRow where
  state : String
  sector : String
  total_allocation : ℚ
  event_count : ℕ
  avg_allocation : ℚ
  deriving DecidableEq, Repr

/-- The `_state_sector_aggregations` table: groupby (state, sector),
reduce to sum and count, then select the derived streaming average
`total_allocation / event_count`. -/
def stateSectorAgg (es : List Event) : List AggRow :=
  (runAgg stateSectorKey es).map
    (fun x => { state := x.1.1, sector := x.1.2, total_allocation := x.2.1,
                event_count := x.2.2,
                avg_allocation := x.2.1 / (x.2.2 : ℚ) })

/-- The sector-level average table built inside `_spike_detection`:
groupby sector, reduce to `sum(allocation) / count()`, here kept as a
lookup from sector to its current average (the table has one row per
sector seen). -/
def sectorAvg (es : List Event) (s : String) : Option ℚ :=
  (findA s (runAgg Event.sector es)).map (fun tc => tc.1 / (tc.2 : ℚ))

/-- Row type of the `spike_alerts` output table (the triggering
event's columns plus `sector_avg` and `spike_ratio`). -/
structure SpikeRow where
  state : String
  sector : String
  allocation : ℚ
  contractor : String
  timestamp : ℤ
  sector_avg : ℚ
  spike_ratio : ℚ
  deriving DecidableEq, Repr

/-- The join step of `_spike_detection`: every raw event acquires its
sector's rolling average from the `sector_avg` table. -/
def joinedRows (es : List Event) : List (Event × ℚ) :=
  es.filterMap (fun e => (sectorAvg es e.sector).map (fun a => (e, a)))

/-- The `spike_alerts` table of `_spike_detection`: join events with
their sector average, keep rows with
`allocation > SPIKE_MULTIPLIER * sector_avg`, and select the derived
`spike_ratio = allocation / sector_avg`. -/
def spikeAlerts (es : List Event) : List SpikeRow :=
  ((joinedRows es).filter
      (fun p => decide (SPIKE_MULTIPLIER * p.2 < p.1.allocation))).map
    (fun p => { state := p.1.state, sector := p.1.sector,
                allocation := p.1.allocation, contractor := p.1.contractor,
                timestamp := p.1.timestamp, sector_avg := p.2,
                spike_ratio := p.1.allocation / p.2 })

/-- The alert row (if any) that event `e` contributes to
`spikeAlerts es`: its sector average is looked up, and the row is kept
exactly when `allocation > SPIKE_MULTIPLIER * sector_avg`. -/
def spikeRowOf (es : List Event) (e : Event) : Option SpikeRow :=
  (sectorAvg es e.sector).bind (fun a =>
    if SPIKE_MULTIPLIER * a < e.allocation then
      some { state := e.state, sector := e.sector,
             allocation := e.allocation, contractor := e.contractor,
             timestamp := e.timestamp, sector_avg := a,
             spike_ratio := e.allocation / a }
    else none)

/-- Row type of the `contractor_flags` output table. -/
structure FlagRow where
  contractor : String
  total_spend : ℚ
  payment_count : ℕ
  deriving DecidableEq, Repr

/-- The `_contractor_anomalies` table: groupby contractor, reduce to
cumulative spend and payment count, keep contractors with
`total_spend > CONTRACTOR_ALERT_CRORES`. -/
def contractorFlags (es : List Event) : List FlagRow :=
  (((runAgg Event.contractor es).filter
      (fun x => decide (CONTRACTOR_ALERT_CRORES < x.2.1))).map
    (fun x => { contractor := x.1, total_spend := x.2.1,
                payment_count := x.2.2 }))

/-- The event reconstructed from a spike alert row's copied columns. -/
def SpikeRow.toEvent (r : SpikeRow) : Event :=
  { state := r.state, sector := r.sector, allocation := r.allocation,
    contractor := r.contractor, timestamp := r.timestamp }

/-- Keys (in row order) of an accumulator table. -/
def keysOf {K : Type} (l : List (K × ℚ × ℕ)) : List K := l.map Prod.fst

/-- Sum of the amounts of the events of sector `s` in `es`. -/
def sectorSum (es : List Event) (s : String) : ℚ :=
  ((groupEvents Event.sector s es).map Event.allocation).sum

/-- Number of events of sector `s` in `es`. -/
def sectorCnt (es : List Event) (s : String) : ℕ :=
  (groupEvents Event.sector s es).length

/-- A field value of an incoming JSONL record, before schema
validation. -/
inductive FieldValue where
  | str (s : String)
  | num (q : ℚ)
  | int (n : ℤ)
  deriving DecidableEq, Repr

/-- A raw inbound record: each schema column either absent or holding
some (possibly wrongly typed) value. -/
structure RawRecord where
  state : Option FieldValue
  sector : Option FieldValue
  allocation : Option FieldValue
  contractor : Option FieldValue
  timestamp : Option FieldValue
  deriving DecidableEq, Repr

/-- Ingestion-path error taxonomy of the spec. -/
inductive IngestError where
  | InvalidEvent
  deriving DecidableEq, Repr

/-- Modelled from the spec: the inbound-contract validation of
`BudgetEventSchema` (`src/ingestion.py` declares the column names and
types; the enforcement that a malformed record — missing field, wrong
field type, or negative amount — is rejected with an `InvalidEvent`
error lives in the streaming runtime, outside this repository's
sources, and is modelled here from the spec's inbound event schema). -/
def validateEvent (r : RawRecord) : Except IngestError Event :=
  match r.state, r.sector, r.allocation, r.contractor, r.timestamp with
  | some (.str st), some (.str sec), some (.num a), some (.str c),
      some (.int t) =>
      if 0 ≤ a then Except.ok ⟨st, sec, a, c, t⟩
      else Except.error IngestError.InvalidEvent
  | _, _, _, _, _ => Except.error IngestError.InvalidEvent

/-- Modelled from the spec: the stream of events that actually reaches
the transformations — validated records pass through, rejected records
are dropped (logged, never folded). -/
def ingest (rs : List RawRecord) : List Event :=
  rs.filterMap (fun r => (validateEvent r).toOption)

/-- The three-event scenario of the spec's end-to-end test:
(TN, Electricity, 300, C1), (TN, Electricity, 320, C1),
(TN, Electricity, 5000, C1). -/
def c2Events : List Event :=
  [⟨"TN", "Electricity", 300, "C1", 1⟩,
   ⟨"TN", "Electricity", 320, "C1", 2⟩,
   ⟨"TN", "Electricity", 5000, "C1", 3⟩]

/-- Four events of amount 1/4 in sector S, giving sector sum 1. -/
def w3Base : List Event :=
  [⟨"T", "S", 1/4, "C", 1⟩, ⟨"T", "S", 1/4, "C", 2⟩,
   ⟨"T", "S", 1/4, "C", 3⟩, ⟨"T", "S", 1/4, "C", 4⟩]

/-- An event whose amount is exactly 4 times the resulting average. -/
def w3e : Event := ⟨"T", "S", 4, "C", 5⟩

/-- Sequence whose sector-S average is exactly 1 with the last event at
amount 4. -/
def w3a : List Event := w3Base ++ [w3e]

/-- Four events of amount 9999999/40000000 in sector S, giving sector
sum 9999999/10000000. -/
def w3Base2 : List Event :=
  [⟨"T", "S", 9999999/40000000, "C", 1⟩, ⟨"T", "S", 9999999/40000000, "C", 2⟩,
   ⟨"T", "S", 9999999/40000000, "C", 3⟩, ⟨"T", "S", 9999999/40000000, "C", 4⟩]

/-- An event whose amount is exactly 4.0000001 times the resulting
average. -/
def w3f : Event := ⟨"T", "S", 40000001/10000000, "C", 5⟩

/-- Sequence whose sector-S average is exactly 1 with the last event at
amount 4.0000001. -/
def w3b : List Event := w3Base2 ++ [w3f]

/-- The aggregate row produced by the three-event scenario. -/
def w4Row : AggRow := ⟨"TN", "Electricity", 5620, 3, 5620/3⟩

/-- Five events in sector X: four of amount 1, then one of amount 100
(which spikes: 100 > 4 × 104/5). -/
def c5Events : List Event :=
  [⟨"TN", "X", 1, "A", 1⟩, ⟨"TN", "X", 1, "A", 2⟩, ⟨"TN", "X", 1, "A", 3⟩,
   ⟨"TN", "X", 1, "A", 4⟩, ⟨"TN", "X", 100, "A", 5⟩]

/-- A later large event in sector X that lifts the sector average far
enough that the amount-100 event no longer exceeds 4 × average. -/
def c5Later : Event := ⟨"TN", "X", 1000, "A", 6⟩

/-- The alert row for the amount-100 event while only `c5Events` have
arrived (average 104/5, ratio 125/26). -/
def c5Row : SpikeRow := ⟨"TN", "X", 100, "A", 5, 104/5, 125/26⟩

/-- A well-formed raw record. -/
def w6g : RawRecord :=
  ⟨some (.str "TN"), some (.str "X"), some (.num 10), some (.str "A"),
   some (.int 1)⟩

/-- A malformed raw record: negative amount. -/
def w6b : RawRecord :=
  ⟨some (.str "TN"), some (.str "X"), some (.num (-5)), some (.str "A"),
   some (.int 1)⟩

/-- One event that takes contractor A over the 5000 threshold. -/
def w7es : List Event := [⟨"TN", "X", 6000, "A", 1⟩]

/-- A later small payment by contractor A. -/
def w7ext : List Event := [⟨"TN", "X", 1, "A", 2⟩]

/-- Contractor A's flag row after `w7es`. -/
def w7f : FlagRow := ⟨"A", 6000, 1⟩

/-- A single starting event for the monotonicity witness. -/
def w8es : List Event := [⟨"TN", "X", 5, "A", 1⟩]

/-- A second event folded on top of `w8es`. -/
def w8e : Event := ⟨"TN", "X", 2, "A", 2⟩

/-- A single event, the only one of its sector. -/
def w10e : Event := ⟨"TN", "X", 7, "A", 1⟩

/-- An event sequence in which `w10e` is the sole event of sector X. -/
def w10es : List Event := [⟨"TN", "Y", 3, "A", 2⟩, w10e, ⟨"TN", "Y", 9, "B", 3⟩]

/-! ### Lemmas about the keyed accumulator -/

theorem findA_accumulate_self {K : Type} [DecidableEq K] (k : K) (a : ℚ)
    (l : List (K × ℚ × ℕ)) :
    findA k (accumulate k a l) =
      some ((match findA k l with
             | none => (a, 1)
             | some tc => (tc.1 + a, tc.2 + 1)) : ℚ × ℕ) := by
  induction l with
  | nil => simp [accumulate, findA]
  | cons hd tl ih =>
    obtain ⟨k', t, c⟩ := hd
    by_cases h : k' = k
    · subst h
      simp [accumulate, findA]
    · simp [accumulate, findA, h, ih]

theorem findA_accumulate_ne {K : Type} [DecidableEq K] {k k' : K} (h : k' ≠ k)
    (a : ℚ) (l : List (K × ℚ × ℕ)) :
    findA k' (accumulate k a l) = findA k' l := by
  induction l with
  | nil => simp [accumulate, findA, Ne.symm h]
  | cons hd tl ih =>
    obtain ⟨k2, t, c⟩ := hd
    by_cases h2 : k2 = k
    · subst h2
      simp [accumulate, findA, Ne.symm h]
    · simp only [accumulate, if_neg h2, findA, ih]

theorem runAgg_snoc {K : Type} [DecidableEq K] (key : Event → K)
    (es : List Event) (e : Event) :
    runAgg key (es ++ [e]) = accumulate (key e) e.allocation (runAgg key es) := by
  simp [runAgg, List.foldl_append]

theorem groupEvents_snoc {K : Type} [DecidableEq K] (key : Event → K) (k : K)
    (es : List Event) (e : Event) :
    groupEvents key k (es ++ [e]) =
      groupEvents key k es ++ if key e = k then [e] else [] := by
  by_cases h : key e = k <;> simp [groupEvents, List.filter_append, h]

theorem runAgg_findA {K : Type} [DecidableEq K] (key : Event → K)
    (es : List Event) (k : K) :
    findA k (runAgg key es) =
      if groupEvents key k es = [] then none
      else some (((groupEvents key k es).map Event.allocation).sum,
                 (groupEvents key k es).length) := by
  induction es using List.reverseRecOn with
  | nil => simp [runAgg, findA, groupEvents]
  | append_singleton es e ih =>
    rw [runAgg_snoc, groupEvents_snoc]
    by_cases h : key e = k
    · subst h
      rw [if_pos rfl, findA_accumulate_self, ih]
      by_cases hg : groupEvents key (key e) es = []
      · rw [if_pos hg, hg]
        simp
      · rw [if_neg hg, if_neg (by simp)]
        simp
    · rw [if_neg h, findA_accumulate_ne (Ne.symm h), ih]
      simp

theorem keysOf_accumulate {K : Type} [DecidableEq K] (k : K) (a : ℚ)
    (l : List (K × ℚ × ℕ)) :
    keysOf (accumulate k a l) =
      if k ∈ keysOf l then keysOf l else keysOf l ++ [k] := by
  induction l with
  | nil => simp [accumulate, keysOf]
  | cons hd tl ih =>
    obtain ⟨k', t, c⟩ := hd
    by_cases h : k' = k
    · subst h
      simp [accumulate, keysOf]
    · rw [show accumulate k a ((k', t, c) :: tl) = (k', t, c) :: accumulate k a tl
            from by simp [accumulate, h]]
      simp only [keysOf, List.map_cons] at ih ⊢
      rw [ih]
      by_cases h2 : k ∈ List.map Prod.fst tl <;>
        simp [List.mem_cons, h2, Ne.symm h]

theorem keysOf_runAgg_nodup {K : Type} [DecidableEq K] (key : Event → K)
    (es : List Event) : (keysOf (runAgg key es)).Nodup := by
  induction es using List.reverseRecOn with
  | nil => simp [runAgg, keysOf]
  | append_singleton es e ih =>
    rw [runAgg_snoc, keysOf_accumulate]
    by_cases h : key e ∈ keysOf (runAgg key es)
    · simpa [h] using ih
    · simp [h, List.nodup_append, ih]

theorem findA_eq_some_of_mem {K : Type} [DecidableEq K]
    {l : List (K × ℚ × ℕ)} {k : K} {v : ℚ × ℕ}
    (hnd : (keysOf l).Nodup) (hm : (k, v) ∈ l) : findA k l = some v := by
  induction l with
  | nil => cases hm
  | cons hd tl ih =>
    obtain ⟨k', t, c⟩ := hd
    rcases List.mem_cons.mp hm with heq | htl
    · cases heq
      simp [findA]
    · have hnd2 := List.nodup_cons.mp (show (k' :: keysOf tl).Nodup from hnd)
      have hk : k' ≠ k := by
        intro hh
        subst hh
        exact hnd2.1 (List.mem_map_of_mem Prod.fst htl)
      rw [findA, if_neg hk]
      exact ih hnd2.2 htl

theorem mem_of_findA_eq_some {K : Type} [DecidableEq K]
    {l : List (K × ℚ × ℕ)} {k : K} {v : ℚ × ℕ}
    (h : findA k l = some v) : (k, v) ∈ l := by
  induction l with
  | nil => simp [findA] at h
  | cons hd tl ih =>
    obtain ⟨k', t, c⟩ := hd
    by_cases hk : k' = k
    · subst hk
      rw [findA, if_pos rfl] at h
      have : (t, c) = v := Option.some_injective _ h
      exact List.mem_cons.mpr (Or.inl (by rw [← this]))
    · rw [findA, if_neg hk] at h
      exact List.mem_cons.mpr (Or.inr (ih h))

theorem runAgg_cnt_pos {K : Type} [DecidableEq K] (key : Event → K)
    (es : List Event) : ∀ x ∈ runAgg key es, 1 ≤ x.2.2 := by
  intro x hx
  obtain ⟨k, v⟩ := x
  have hf := findA_eq_some_of_mem (keysOf_runAgg_nodup key es) hx
  rw [runAgg_findA] at hf
  by_cases hg : groupEvents key k es = []
  · rw [if_pos hg] at hf
    cases hf
  · rw [if_neg hg] at hf
    have hv : v = (((groupEvents key k es).map Event.allocation).sum,
                   (groupEvents key k es).length) :=
      (Option.some_injective _ hf).symm
    show 1 ≤ v.2
    rw [hv]
    exact List.length_pos.mpr hg

/-! ### Lemmas about the spike pipeline and the flag table -/

theorem filterMapJoin {α β γ : Type} (f : α → Option β) (cond : α → β → Prop)
    [inst : ∀ e a, Decidable (cond e a)] (build : α → β → γ) (l : List α) :
    ((l.filterMap (fun e => (f e).map (fun a => (e, a)))).filter
        (fun p => decide (cond p.1 p.2))).map (fun p => build p.1 p.2)
      = l.filterMap (fun e =>
          (f e).bind (fun a => if cond e a then some (build e a) else none)) := by
  induction l with
  | nil => rfl
  | cons e tl ih =>
    cases hf : f e with
    | none => simp [List.filterMap_cons, hf, ih]
    | some a =>
      by_cases hc : cond e a <;>
        simp [List.filterMap_cons, hf, hc, ih]

theorem spikeAlerts_eq (es : List Event) :
    spikeAlerts es = es.filterMap (spikeRowOf es) := by
  have h := filterMapJoin (fun e => sectorAvg es e.sector)
    (fun e a => SPIKE_MULTIPLIER * a < e.allocation)
    (fun e a => ({ state := e.state, sector := e.sector,
                   allocation := e.allocation, contractor := e.contractor,
                   timestamp := e.timestamp, sector_avg := a,
                   spike_ratio := e.allocation / a } : SpikeRow)) es
  exact h

theorem map_filterMap_sublist {α β : Type} (g : α → Option β) (t : β → α)
    (hg : ∀ e r, g e = some r → t r = e) (l : List α) :
    ((l.filterMap g).map t).Sublist l := by
  induction l with
  | nil => simp
  | cons e tl ih =>
    cases hge : g e with
    | none =>
      rw [List.filterMap_cons_none hge]
      exact ih.cons e
    | some r =>
      rw [List.filterMap_cons_some hge, List.map_cons, hg e r hge]
      exact ih.cons₂ e

theorem filter_key_length_one {α K : Type} [DecidableEq K] (key : α → K)
    (l : List α) (hl : (l.map key).Nodup) (x : α) (hx : x ∈ l) :
    (l.filter (fun y => decide (key y = key x))).length = 1 := by
  induction l with
  | nil => cases hx
  | cons hd tl ih =>
    have hnd := List.nodup_cons.mp (show (key hd :: tl.map key).Nodup from hl)
    rcases List.mem_cons.mp hx with heq | htl
    · subst heq
      have hnone : tl.filter (fun y => decide (key y = key x)) = [] := by
        rw [List.filter_eq_nil_iff]
        intro y hy hdec
        exact hnd.1 (by
          rw [show key x = key y from (of_decide_eq_true hdec).symm]
          exact List.mem_map_of_mem key hy)
      simp [List.filter_cons, hnone]
    · have hne : key hd ≠ key x := by
        intro hh
        exact hnd.1 (hh ▸ List.mem_map_of_mem key htl)
      rw [List.filter_cons_of_neg (by simpa using hne)]
      exact ih hnd.2 htl

theorem validateEvent_ok_nonneg (r : RawRecord) (e : Event)
    (h : validateEvent r = Except.ok e) : 0 ≤ e.allocation := by
  unfold validateEvent at h
  split at h
  · split at h
    · cases h
      assumption
    · cases h
  · cases h

theorem spikeRowOf_some_props (es : List Event) (e : Event) (r : SpikeRow)
    (h : spikeRowOf es e = some r) :
    SpikeRow.toEvent r = e ∧ sectorAvg es e.sector = some r.sector_avg
    ∧ SPIKE_MULTIPLIER * r.sector_avg < r.allocation
    ∧ r.spike_ratio = r.allocation / r.sector_avg := by
  unfold spikeRowOf at h
  rcases hx : sectorAvg es e.sector with _ | a
  · rw [hx] at h
    cases h
  · rw [hx] at h
    have h2 : (if SPIKE_MULTIPLIER * a < e.allocation
        then some ({ state := e.state, sector := e.sector,
                     allocation := e.allocation, contractor := e.contractor,
                     timestamp := e.timestamp, sector_avg := a,
                     spike_ratio := e.allocation / a } : SpikeRow)
        else none) = some r := h
    split at h2
    next hc =>
      cases h2
      exact ⟨rfl, rfl, hc, rfl⟩
    next => cases h2

theorem groupEvents_append {K : Type} [DecidableEq K] (key : Event → K)
    (k : K) (l1 l2 : List Event) :
    groupEvents key k (l1 ++ l2) = groupEvents key k l1 ++ groupEvents key k l2 := by
  simp [groupEvents, List.filter_append]

theorem runAgg_mono {K : Type} [DecidableEq K] (key : Event → K)
    (es : List Event) (e : Event) (hnn : 0 ≤ e.allocation) (k : K)
    (t : ℚ) (c : ℕ) (h : findA k (runAgg key es) = some (t, c)) :
    ∃ t2 c2, findA k (runAgg key (es ++ [e])) = some (t2, c2)
      ∧ t ≤ t2 ∧ c ≤ c2 := by
  rw [runAgg_findA] at h
  by_cases hg : groupEvents key k es = []
  · rw [if_pos hg] at h
    cases h
  · rw [if_neg hg] at h
    have hp := Option.some_injective _ h
    injection hp with h1 h2
    rw [runAgg_findA, groupEvents_snoc]
    by_cases hk : key e = k
    · rw [if_pos hk, if_neg (by simp)]
      refine ⟨_, _, rfl, ?_, ?_⟩
      · rw [← h1]
        simp only [List.map_append, List.sum_append, List.map_cons,
          List.map_nil, List.sum_cons, List.sum_nil]
        linarith
      · rw [← h2]
        simp
    · rw [if_neg hk, List.append_nil, if_neg hg]
      exact ⟨t, c, by rw [h1, h2], le_refl t, le_refl c⟩

/-! ### Claim theorems -/

/-- C1: for every event `e` with sector `s`, the baseline average that
the spike check compares `e`'s amount against, evaluated at the moment
`e` has arrived (history `p ++ [e]`), is the average over sector `s`'s
full running history including `e` itself — (sum of all amounts for
sector `s` including `e`) / (count including `e`) — and `e` qualifies
as a spike exactly when its amount strictly exceeds `SPIKE_MULTIPLIER`
times that average. -/
theorem spike_baseline_includes_current_event (p : List Event) (e : Event) :
    sectorAvg (p ++ [e]) e.sector
        = some ((sectorSum p e.sector + e.allocation)
            / ((sectorCnt p e.sector : ℚ) + 1))
    ∧ ((spikeRowOf (p ++ [e]) e).isSome = true ↔
        SPIKE_MULTIPLIER * ((sectorSum p e.sector + e.allocation)
            / ((sectorCnt p e.sector : ℚ) + 1)) < e.allocation) := by
  have havg : sectorAvg (p ++ [e]) e.sector
      = some ((sectorSum p e.sector + e.allocation)
          / ((sectorCnt p e.sector : ℚ) + 1)) := by
    unfold sectorAvg
    rw [runAgg_findA, groupEvents_snoc, if_pos rfl,
        if_neg (by simp : ¬(groupEvents Event.sector e.sector p ++ [e] = []))]
    simp only [Option.map_some']
    congr 1
    simp [sectorSum, sectorCnt]
  refine ⟨havg, ?_⟩
  unfold spikeRowOf
  rw [havg]
  by_cases hc : SPIKE_MULTIPLIER * ((sectorSum p e.sector + e.allocation)
      / ((sectorCnt p e.sector : ℚ) + 1)) < e.allocation
  · simp [hc]
  · simp [hc]

/-- C3: the spike comparison is strictly greater-than — with baseline
average `a`, an event whose amount is exactly `SPIKE_MULTIPLIER * a`
(4.0 times the sector average) produces no alert row, while an event
whose amount is `4.0000001 * a` (for positive `a`) does. -/
theorem spike_threshold_strict (es : List Event) (e : Event) (a : ℚ)
    (h : sectorAvg es e.sector = some a) :
    (e.allocation = SPIKE_MULTIPLIER * a → spikeRowOf es e = none)
    ∧ (0 < a → e.allocation = (40000001 / 10000000 : ℚ) * a →
        (spikeRowOf es e).isSome = true) := by
  unfold spikeRowOf
  rw [h]
  constructor
  · intro heq
    have hc : ¬ SPIKE_MULTIPLIER * a < e.allocation := by
      rw [heq]
      exact lt_irrefl _
    simp [hc]
  · intro ha heq
    have hc : SPIKE_MULTIPLIER * a < e.allocation := by
      rw [heq]
      unfold SPIKE_MULTIPLIER
      linarith
    simp [hc]

/-- Witness for C3: with four prior sector-S events summing to 1 and a
fifth event of amount 4 the average is exactly 1 and no alert appears;
with prior events summing to 9999999/10000000 and a fifth event of
amount 4.0000001 the average is again exactly 1 and an alert appears. -/
theorem spike_threshold_strict_witness :
    spikeRowOf w3a w3e = none ∧ (spikeRowOf w3b w3f).isSome = true :=
  ⟨(spike_threshold_strict w3a w3e 1
      (by norm_num [w3a, w3Base, w3e, sectorAvg, runAgg, accumulate, findA])).1
      (by norm_num [w3e, SPIKE_MULTIPLIER]),
   (spike_threshold_strict w3b w3f 1
      (by norm_num [w3b, w3Base2, w3f, sectorAvg, runAgg, accumulate, findA])).2
      (by norm_num) (by norm_num [w3f])⟩

/-- C2: the spec's end-to-end scenario — after the three events
(TN, Electricity, 300, C1), (TN, Electricity, 320, C1),
(TN, Electricity, 5000, C1): the Electricity sector average is 5620/3;
no spike alert exists after any of the three events (the 5000 event's
ratio 2.67 is below 4.0); the (TN, Electricity) aggregate row is
(total 5620, count 3, avg 5620/3); and contractor C1 is flagged with
total_spend 5620 and payment_count 3. -/
theorem end_to_end_scenario :
    sectorAvg c2Events "Electricity" = some (5620/3)
    ∧ spikeAlerts (c2Events.take 1) = []
    ∧ spikeAlerts (c2Events.take 2) = []
    ∧ spikeAlerts c2Events = []
    ∧ stateSectorAgg c2Events
        = [{ state := "TN", sector := "Electricity", total_allocation := 5620,
             event_count := 3, avg_allocation := 5620/3 }]
    ∧ contractorFlags c2Events
        = [{ contractor := "C1", total_spend := 5620, payment_count := 3 }] := by
  refine ⟨?_, ?_, ?_, ?_, ?_, ?_⟩ <;>
    norm_num [c2Events, sectorAvg, runAgg, accumulate, findA, spikeAlerts,
      joinedRows, stateSectorAgg, stateSectorKey, contractorFlags,
      SPIKE_MULTIPLIER, CONTRACTOR_ALERT_CRORES, List.filterMap_cons,
      List.filter_cons]

/-- C10: an event that is the only event of its sector never produces
a spike alert — the baseline average including the event itself equals
the event's own amount, which cannot strictly exceed 4 times itself
for a non-negative amount. -/
theorem sole_sector_event_no_spike (es : List Event) (e : Event)
    (hnn : 0 ≤ e.allocation)
    (h : groupEvents Event.sector e.sector es = [e]) :
    sectorAvg es e.sector = some e.allocation
    ∧ spikeRowOf es e = none
    ∧ ∀ r ∈ spikeAlerts es, r.sector ≠ e.sector := by
  have havg : sectorAvg es e.sector = some e.allocation := by
    unfold sectorAvg
    rw [runAgg_findA, h]
    simp
  have hnone : spikeRowOf es e = none := by
    unfold spikeRowOf
    rw [havg]
    have hc : ¬ SPIKE_MULTIPLIER * e.allocation < e.allocation := by
      unfold SPIKE_MULTIPLIER
      push_neg
      linarith
    simp [hc]
  refine ⟨havg, hnone, ?_⟩
  intro r hr hsec
  rw [spikeAlerts_eq] at hr
  obtain ⟨e2, he2, hrow⟩ := List.mem_filterMap.mp hr
  have hprops := spikeRowOf_some_props es e2 r hrow
  have he2sec : e2.sector = e.sector := by
    rw [← hprops.1]
    exact hsec
  have he2mem : e2 ∈ groupEvents Event.sector e.sector es := by
    simp [groupEvents, List.mem_filter, he2, he2sec]
  rw [h] at he2mem
  have he2e : e2 = e := by simpa using he2mem
  rw [he2e, hnone] at hrow
  cases hrow

/-- Witness for C10: in `w10es` the event `w10e` is the sole event of
sector X and produces no alert row. -/
theorem sole_sector_event_no_spike_witness :
    spikeRowOf w10es w10e = none :=
  (sole_sector_event_no_spike w10es w10e (by norm_num [w10e])
      (by decide)).2.1

/-- C4: every row of the (state, sector) aggregate table carries the
sum of the amounts of exactly the events with that (state, sector)
key, the count of those events, and an average equal to total divided
by count. -/
theorem aggregate_rows_correct (es : List Event) (r : AggRow)
    (h : r ∈ stateSectorAgg es) :
    r.total_allocation
        = ((groupEvents stateSectorKey (r.state, r.sector) es).map
            Event.allocation).sum
    ∧ r.event_count
        = (groupEvents stateSectorKey (r.state, r.sector) es).length
    ∧ r.avg_allocation = r.total_allocation / (r.event_count : ℚ) := by
  unfold stateSectorAgg at h
  obtain ⟨x, hx, hxr⟩ := List.mem_map.mp h
  obtain ⟨⟨ks, kc⟩, t, c⟩ := x
  subst hxr
  have hf := findA_eq_some_of_mem (keysOf_runAgg_nodup stateSectorKey es) hx
  rw [runAgg_findA] at hf
  by_cases hg : groupEvents stateSectorKey (ks, kc) es = []
  · rw [if_pos hg] at hf
    cases hf
  · rw [if_neg hg] at hf
    have hp := Option.some_injective _ hf
    injection hp with h1 h2
    subst h1
    subst h2
    exact ⟨rfl, rfl, rfl⟩

/-- Witness for C4: the (TN, Electricity) aggregate row of the
three-event scenario satisfies the sum/count/average equations. -/
theorem aggregate_rows_correct_witness :
    w4Row.total_allocation
        = ((groupEvents stateSectorKey (w4Row.state, w4Row.sector)
            c2Events).map Event.allocation).sum
    ∧ w4Row.event_count
        = (groupEvents stateSectorKey (w4Row.state, w4Row.sector)
            c2Events).length
    ∧ w4Row.avg_allocation = w4Row.total_allocation / (w4Row.event_count : ℚ) :=
  aggregate_rows_correct c2Events w4Row
    (by norm_num [stateSectorAgg, runAgg, accumulate, c2Events,
      stateSectorKey, w4Row])

/-- Counterexample for C5: the spike-alert table is not append-only.
After the five events of `c5Events` an alert for the amount-100 event
(timestamp 5) is present; after ingesting one further event
(`c5Later`, amount 1000, which lifts the sector average) no alert with
timestamp 5 exists any more — the earlier alert has been retracted. -/
theorem spike_alert_retraction_counterexample :
    (∃ r ∈ spikeAlerts c5Events, r.timestamp = 5)
    ∧ ∀ r ∈ spikeAlerts (c5Events ++ [c5Later]), r.timestamp ≠ 5 := by
  constructor
  · refine ⟨c5Row, ?_, rfl⟩
    norm_num [spikeAlerts, joinedRows, sectorAvg, runAgg, accumulate, findA,
      c5Events, c5Row, SPIKE_MULTIPLIER, List.filterMap_cons, List.filter_cons]
  · intro r hr
    norm_num [spikeAlerts, joinedRows, sectorAvg, runAgg, accumulate, findA,
      c5Events, c5Later, SPIKE_MULTIPLIER, List.filterMap_cons,
      List.filter_cons] at hr
    rw [hr]
    norm_num

/-- C5 (amended): the spike-alert table is maintained incrementally
rather than append-only — at every point it consists of exactly the
events whose amount strictly exceeds `SPIKE_MULTIPLIER` times the
CURRENT sector average: every alert row is such an event (in
event-arrival order, carrying the current average and the ratio
against it), and conversely every event exceeding the threshold
against the current average contributes its alert row; later events
may update or retract an earlier alert (see the counterexample). -/
theorem spike_alerts_reflect_current_state (es : List Event) :
    ((spikeAlerts es).map SpikeRow.toEvent).Sublist es
    ∧ (∀ r ∈ spikeAlerts es,
        sectorAvg es r.sector = some r.sector_avg
        ∧ SPIKE_MULTIPLIER * r.sector_avg < r.allocation
        ∧ r.spike_ratio = r.allocation / r.sector_avg)
    ∧ ∀ e ∈ es, ∀ a, sectorAvg es e.sector = some a →
        SPIKE_MULTIPLIER * a < e.allocation →
        SpikeRow.mk e.state e.sector e.allocation e.contractor e.timestamp
          a (e.allocation / a) ∈ spikeAlerts es := by
  refine ⟨?_, ?_, ?_⟩
  · rw [spikeAlerts_eq]
    exact map_filterMap_sublist _ _
      (fun e r h => (spikeRowOf_some_props es e r h).1) es
  · intro r hr
    rw [spikeAlerts_eq] at hr
    obtain ⟨e, he, hrow⟩ := List.mem_filterMap.mp hr
    have hp := spikeRowOf_some_props es e r hrow
    have hsec : e.sector = r.sector := by
      rw [← hp.1]
      rfl
    refine ⟨?_, hp.2.2.1, hp.2.2.2⟩
    rw [← hsec]
    exact hp.2.1
  · intro e he a ha hgt
    rw [spikeAlerts_eq]
    refine List.mem_filterMap.mpr ⟨e, he, ?_⟩
    unfold spikeRowOf
    rw [ha]
    simp [hgt]

/-- Witness for C5 (amended): after `c5Events` the alert row of the
amount-100 event carries the then-current sector average 104/5 with
its ratio, and conversely that event (which exceeds 4 times the
current average 104/5) does have its row in the table. -/
theorem spike_alerts_reflect_current_state_witness :
    (sectorAvg c5Events c5Row.sector = some c5Row.sector_avg
      ∧ SPIKE_MULTIPLIER * c5Row.sector_avg < c5Row.allocation
      ∧ c5Row.spike_ratio = c5Row.allocation / c5Row.sector_avg)
    ∧ SpikeRow.mk "TN" "X" 100 "A" 5 (104/5) (100 / (104/5 : ℚ))
        ∈ spikeAlerts c5Events :=
  ⟨(spike_alerts_reflect_current_state c5Events).2.1 c5Row
    (by norm_num [spikeAlerts, joinedRows, sectorAvg, runAgg, accumulate,
      findA, c5Events, c5Row, SPIKE_MULTIPLIER, List.filterMap_cons,
      List.filter_cons]),
   (spike_alerts_reflect_current_state c5Events).2.2
    ⟨"TN", "X", 100, "A", 5⟩ (by decide) (104/5)
    (by norm_num [sectorAvg, runAgg, accumulate, findA, c5Events])
    (by norm_num [SPIKE_MULTIPLIER])⟩

/-- C6: a raw record rejected by validation (missing field, wrong
field type, or negative amount) fails with `InvalidEvent` and is
dropped — appending it to the inbound stream leaves the event stream
and every derived table (aggregates, sector averages, spike alerts,
contractor flags) unchanged, and every event that does reach the
engine has a non-negative amount, so a negative amount is never folded
into any running total. -/
theorem invalid_event_dropped (rs : List RawRecord) (r : RawRecord)
    (h : validateEvent r = Except.error IngestError.InvalidEvent) :
    ingest (rs ++ [r]) = ingest rs
    ∧ stateSectorAgg (ingest (rs ++ [r])) = stateSectorAgg (ingest rs)
    ∧ (∀ s, sectorAvg (ingest (rs ++ [r])) s = sectorAvg (ingest rs) s)
    ∧ spikeAlerts (ingest (rs ++ [r])) = spikeAlerts (ingest rs)
    ∧ contractorFlags (ingest (rs ++ [r])) = contractorFlags (ingest rs)
    ∧ ∀ e ∈ ingest rs, 0 ≤ e.allocation := by
  have hing : ingest (rs ++ [r]) = ingest rs := by
    unfold ingest
    rw [List.filterMap_append]
    simp [h, Except.toOption]
  refine ⟨hing, by rw [hing], fun s => by rw [hing], by rw [hing],
    by rw [hing], ?_⟩
  intro e he
  unfold ingest at he
  obtain ⟨r2, hr2, hv⟩ := List.mem_filterMap.mp he
  cases hvr : validateEvent r2 with
  | ok e2 =>
    rw [hvr] at hv
    have he2 : e2 = e := by simpa [Except.toOption] using hv
    exact he2 ▸ validateEvent_ok_nonneg r2 e2 hvr
  | error err =>
    rw [hvr] at hv
    simp [Except.toOption] at hv

/-- Witness for C6: a record with a negative amount is rejected and
dropped, leaving the ingested stream unchanged. -/
theorem invalid_event_dropped_witness :
    ingest ([w6g] ++ [w6b]) = ingest [w6g] :=
  (invalid_event_dropped [w6g] w6b
    (by norm_num [validateEvent, w6b])).1

/-- C7: once a contractor's cumulative spend has exceeded the
threshold it stays flagged after any further events with non-negative
amounts — some flag row for that contractor exists after every
extension, it reflects the latest full-history total and count, its
total never decreased, and exactly one row for that contractor exists
(updated in place, not duplicated). -/
theorem contractor_flag_latched (es ext : List Event) (f : FlagRow)
    (hext : ∀ e ∈ ext, 0 ≤ e.allocation)
    (hf : f ∈ contractorFlags es) :
    ∃ f2 ∈ contractorFlags (es ++ ext),
      f2.contractor = f.contractor
      ∧ f2.total_spend
          = ((groupEvents Event.contractor f.contractor (es ++ ext)).map
              Event.allocation).sum
      ∧ f2.payment_count
          = (groupEvents Event.contractor f.contractor (es ++ ext)).length
      ∧ f.total_spend ≤ f2.total_spend
      ∧ ((contractorFlags (es ++ ext)).filter
          (fun x => decide (x.contractor = f.contractor))).length = 1 := by
  unfold contractorFlags at hf
  obtain ⟨x, hx, hxf⟩ := List.mem_map.mp hf
  obtain ⟨c, t, n⟩ := x
  obtain ⟨hxm, hxq⟩ := List.mem_filter.mp hx
  subst hxf
  have ht : CONTRACTOR_ALERT_CRORES < t := of_decide_eq_true hxq
  have hfind := findA_eq_some_of_mem (keysOf_runAgg_nodup Event.contractor es) hxm
  rw [runAgg_findA] at hfind
  by_cases hg : groupEvents Event.contractor c es = []
  · rw [if_pos hg] at hfind
    cases hfind
  · rw [if_neg hg] at hfind
    have hp := Option.some_injective _ hfind
    injection hp with h1 h2
    have hg2 : groupEvents Event.contractor c (es ++ ext) ≠ [] := by
      rw [groupEvents_append]
      intro hh
      exact hg (List.append_eq_nil.mp hh).1
    have hfind2 : findA c (runAgg Event.contractor (es ++ ext))
        = some (((groupEvents Event.contractor c (es ++ ext)).map
            Event.allocation).sum,
          (groupEvents Event.contractor c (es ++ ext)).length) := by
      rw [runAgg_findA, if_neg hg2]
    have hextnn : 0 ≤ ((groupEvents Event.contractor c ext).map
        Event.allocation).sum := by
      apply List.sum_nonneg
      intro q hq
      obtain ⟨e, he, hqe⟩ := List.mem_map.mp hq
      rw [← hqe]
      exact hext e (List.mem_filter.mp he).1
    have hSle : t ≤ ((groupEvents Event.contractor c (es ++ ext)).map
        Event.allocation).sum := by
      rw [groupEvents_append, List.map_append, List.sum_append, ← h1]
      linarith
    have ht2 : CONTRACTOR_ALERT_CRORES
        < ((groupEvents Event.contractor c (es ++ ext)).map
            Event.allocation).sum := lt_of_lt_of_le ht hSle
    have hmem2 := mem_of_findA_eq_some hfind2
    have hflag : FlagRow.mk c
        (((groupEvents Event.contractor c (es ++ ext)).map
          Event.allocation).sum)
        ((groupEvents Event.contractor c (es ++ ext)).length)
          ∈ contractorFlags (es ++ ext) := by
      unfold contractorFlags
      exact List.mem_map.mpr ⟨_, List.mem_filter.mpr
        ⟨hmem2, decide_eq_true ht2⟩, rfl⟩
    refine ⟨_, hflag, rfl, rfl, rfl, hSle, ?_⟩
    have hnodup : ((contractorFlags (es ++ ext)).map FlagRow.contractor).Nodup := by
      unfold contractorFlags
      rw [List.map_map]
      have hcomp : (FlagRow.contractor ∘ (fun x : String × ℚ × ℕ =>
          ({ contractor := x.1, total_spend := x.2.1,
             payment_count := x.2.2 } : FlagRow))) = Prod.fst := rfl
      rw [hcomp]
      exact List.Nodup.sublist
        ((List.filter_sublist _).map Prod.fst)
        (keysOf_runAgg_nodup Event.contractor (es ++ ext))
    have hlen := filter_key_length_one FlagRow.contractor
      (contractorFlags (es ++ ext)) hnodup _ hflag
    exact hlen

/-- Witness for C7: contractor A, flagged after one 6000 payment,
remains flagged with updated totals after a later payment of 1. -/
theorem contractor_flag_latched_witness :
    ∃ f2 ∈ contractorFlags (w7es ++ w7ext),
      f2.contractor = w7f.contractor
      ∧ f2.total_spend
          = ((groupEvents Event.contractor w7f.contractor (w7es ++ w7ext)).map
              Event.allocation).sum
      ∧ f2.payment_count
          = (groupEvents Event.contractor w7f.contractor (w7es ++ w7ext)).length
      ∧ w7f.total_spend ≤ f2.total_spend
      ∧ ((contractorFlags (w7es ++ w7ext)).filter
          (fun x => decide (x.contractor = w7f.contractor))).length = 1 :=
  contractor_flag_latched w7es w7ext w7f
    (by norm_num [w7ext])
    (by norm_num [contractorFlags, runAgg, accumulate, w7es, w7f,
      CONTRACTOR_ALERT_CRORES, List.filter_cons])

/-- C8: appending one event with a non-negative amount never decreases
any existing key's running total or count, for each of the three
groupings — (state, sector), sector, and contractor. -/
theorem aggregates_monotone (es : List Event) (e : Event)
    (hnn : 0 ≤ e.allocation) :
    (∀ k t c, findA k (runAgg stateSectorKey es) = some (t, c) →
      ∃ t2 c2, findA k (runAgg stateSectorKey (es ++ [e])) = some (t2, c2)
        ∧ t ≤ t2 ∧ c ≤ c2)
    ∧ (∀ s t c, findA s (runAgg Event.sector es) = some (t, c) →
      ∃ t2 c2, findA s (runAgg Event.sector (es ++ [e])) = some (t2, c2)
        ∧ t ≤ t2 ∧ c ≤ c2)
    ∧ (∀ c0 t c, findA c0 (runAgg Event.contractor es) = some (t, c) →
      ∃ t2 c2, findA c0 (runAgg Event.contractor (es ++ [e])) = some (t2, c2)
        ∧ t ≤ t2 ∧ c ≤ c2) :=
  ⟨fun k t c h => runAgg_mono stateSectorKey es e hnn k t c h,
   fun s t c h => runAgg_mono Event.sector es e hnn s t c h,
   fun c0 t c h => runAgg_mono Event.contractor es e hnn c0 t c h⟩

/-- Witness for C8: the (TN, X) bucket keeps total at least 5 and
count at least 1 after one more event of amount 2. -/
theorem aggregates_monotone_witness :
    ∃ t2 c2, findA ("TN", "X") (runAgg stateSectorKey (w8es ++ [w8e]))
        = some (t2, c2) ∧ (5 : ℚ) ≤ t2 ∧ 1 ≤ c2 :=
  (aggregates_monotone w8es w8e (by norm_num [w8e])).1 ("TN", "X") 5 1
    (by norm_num [w8es, runAgg, accumulate, findA, stateSectorKey])

/-- C9: no derived average ever divides by a zero count — every
(state, sector) aggregate row and every sector entry has count at
least 1, every event's spike comparison finds a sector entry with
count at least 1 whose average is total over that count, and a group
entry exists exactly when the group has had at least one event. -/
theorem no_division_by_zero (es : List Event) :
    (∀ r ∈ stateSectorAgg es, 1 ≤ r.event_count
        ∧ r.avg_allocation = r.total_allocation / (r.event_count : ℚ))
    ∧ (∀ x ∈ runAgg Event.sector es, 1 ≤ x.2.2)
    ∧ (∀ e ∈ es, ∃ t c, findA e.sector (runAgg Event.sector es) = some (t, c)
        ∧ 1 ≤ c ∧ sectorAvg es e.sector = some (t / (c : ℚ)))
    ∧ (∀ k, (∃ v, findA k (runAgg stateSectorKey es) = some v)
        ↔ ∃ e ∈ es, stateSectorKey e = k) := by
  refine ⟨?_, runAgg_cnt_pos Event.sector es, ?_, ?_⟩
  · intro r hr
    unfold stateSectorAgg at hr
    obtain ⟨x, hx, hxr⟩ := List.mem_map.mp hr
    subst hxr
    exact ⟨runAgg_cnt_pos stateSectorKey es x hx, rfl⟩
  · intro e he
    have hg : groupEvents Event.sector e.sector es ≠ [] := by
      intro hh
      have hmem : e ∈ groupEvents Event.sector e.sector es := by
        simp [groupEvents, List.mem_filter, he]
      rw [hh] at hmem
      cases hmem
    refine ⟨_, _, by rw [runAgg_findA, if_neg hg], List.length_pos.mpr hg, ?_⟩
    unfold sectorAvg
    rw [runAgg_findA, if_neg hg]
    rfl
  · intro k
    rw [runAgg_findA]
    by_cases hg : groupEvents stateSectorKey k es = []
    · rw [if_pos hg]
      constructor
      · intro ⟨v, hv⟩
        cases hv
      · intro ⟨e, he, hk⟩
        have hn := List.filter_eq_nil_iff.mp hg e he
        exact absurd (decide_eq_true hk) hn
    · rw [if_neg hg]
      constructor
      · intro _
        obtain ⟨e, he⟩ := List.exists_mem_of_ne_nil _ hg
        obtain ⟨hemem, hedec⟩ := List.mem_filter.mp he
        exact ⟨e, hemem, of_decide_eq_true hedec⟩
      · intro _
        exact ⟨_, rfl⟩

/-- Witness for C9: in the three-event scenario the first event finds
its sector entry with count 3 and average 5620/3. -/
theorem no_division_by_zero_witness :
    ∃ t c, findA (Event.sector ⟨"TN", "Electricity", 300, "C1", 1⟩)
        (runAgg Event.sector c2Events) = some (t, c)
      ∧ 1 ≤ c
      ∧ sectorAvg c2Events (Event.sector ⟨"TN", "Electricity", 300, "C1", 1⟩)
          = some (t / (c : ℚ)) :=
  (no_division_by_zero c2Events).2.2.1 ⟨"TN", "Electricity", 300, "C1", 1⟩
    (by decide)

end Maya
